import Mathlib

/-!
# Verification of the collaborative-filtering recommendation engine

Shallow embedding of the core of the `Recommendation_system` repository
(`backend/ml/models/user_based.py`, `item_based.py`, `hybrid.py`,
`neural_cf.py`, `backend/ml/training/train.py`, `evaluate.py`,
`backend/app/services/training_service.py`).

Ratings and similarity scores are embedded as rationals (`ℚ`): the Python
code computes with floats, but every branch condition and arithmetic step
relevant to the verified claims is exact field arithmetic, so `ℚ` is a
faithful carrier.  `numpy` vector operations are embedded index-wise:
entry `i` of a matrix-vector product becomes an explicit sum over a list
of indices.  `np.argsort` (an unstable sort in numpy, so tie order among
equal keys is implementation-defined there) is embedded as a stable
insertion sort on indices ordered by key value; all verified statements
are insensitive to the tie order except where a concrete output list is
computed, and there the tie-break is a legitimate instance of numpy's
unspecified choice.
-/

/- The Batteries rational-number operations are `@[irreducible]` purely as
an elaboration-performance measure; the kernel is free to unfold them.
Restoring the default reducibility lets concrete witness computations over
`ℚ` be checked by `decide`. -/
set_option allowUnsafeReducibility true
attribute [semireducible] Rat.add Rat.mul Rat.inv Rat.sub Rat.ofScientific

/-- `np.clip(x, lo, hi)`: clamp `x` into `[lo, hi]`. -/
def clip (lo hi x : ℚ) : ℚ := min hi (max lo x)

/-- `np.argsort` over an index list: sort the indices by their key value,
ascending.  Ties keep list order (insertion sort is stable). -/
def argsort {α : Type} (key : α → ℚ) (l : List α) : List α :=
  List.insertionSort (fun i j => key i ≤ key j) l

theorem argsort_perm {α : Type} (key : α → ℚ) (l : List α) :
    (argsort key l).Perm l :=
  List.perm_insertionSort _ l

theorem argsort_sorted {α : Type} (key : α → ℚ) (l : List α) :
    (argsort key l).Pairwise (fun i j => key i ≤ key j) := by
  haveI : IsTotal α (fun i j => key i ≤ key j) := ⟨fun a b => le_total (key a) (key b)⟩
  haveI : IsTrans α (fun i j => key i ≤ key j) :=
    ⟨fun a b c hab hbc => le_trans hab hbc⟩
  exact List.sorted_insertionSort _ l

theorem argsort_length {α : Type} (key : α → ℚ) (l : List α) :
    (argsort key l).length = l.length :=
  (argsort_perm key l).length_eq

/-- Python negative-index slicing `a[-n:]`.  Crucially, `-0 == 0`, so for
`n = 0` the slice is the *whole* array, not the empty one; for `n ≥ 1` it
is the last `min(n, len)` elements. -/
def negSlice {α : Type} (n : ℕ) (l : List α) : List α :=
  if n = 0 then l else l.drop (l.length - n)

theorem negSlice_sublist {α : Type} (n : ℕ) (l : List α) :
    (negSlice n l).Sublist l := by
  unfold negSlice
  split_ifs
  · exact List.Sublist.refl l
  · exact List.drop_sublist _ _

theorem negSlice_length_le {α : Type} (n : ℕ) (l : List α) (hn : n ≠ 0) :
    (negSlice n l).length ≤ n := by
  unfold negSlice
  rw [if_neg hn, List.length_drop]
  omega

/-- The top-`n`-by-value selection shared by the `recommend` implementations:
`np.argsort(pred)[-n:][::-1]` followed by the loop that keeps only entries
with a strictly positive score.  At `n = 0` the `[-0:]` slice keeps the
whole array, so *every* positively-scored item is emitted. -/
def topNPos {N : ℕ} (key : Fin N → ℚ) (n : ℕ) : List (Fin N) :=
  ((negSlice n (argsort key (List.finRange N))).reverse).filter
    (fun i => decide (0 < key i))

theorem topNPos_length {N : ℕ} (key : Fin N → ℚ) (n : ℕ) (hn : 1 ≤ n) :
    (topNPos key n).length ≤ n := by
  unfold topNPos
  have h1 := List.length_filter_le (fun i => decide (0 < key i))
    ((negSlice n (argsort key (List.finRange N))).reverse)
  have h2 : ((negSlice n (argsort key (List.finRange N))).reverse).length
      ≤ n := by
    rw [List.length_reverse]
    exact negSlice_length_le n _ (by omega)
  omega

theorem topNPos_sorted {N : ℕ} (key : Fin N → ℚ) (n : ℕ) :
    (topNPos key n).Pairwise (fun i j => key j ≤ key i) := by
  unfold topNPos
  have h1 : (negSlice n (argsort key (List.finRange N))).Pairwise
      (fun i j => key i ≤ key j) :=
    (argsort_sorted key (List.finRange N)).sublist (negSlice_sublist _ _)
  have h2 : ((negSlice n (argsort key (List.finRange N))).reverse).Pairwise
      (fun i j => key j ≤ key i) := by
    rw [List.pairwise_reverse]
    exact h1
  exact h2.sublist (List.filter_sublist _)

theorem topNPos_nodup {N : ℕ} (key : Fin N → ℚ) (n : ℕ) :
    (topNPos key n).Nodup := by
  unfold topNPos
  have h0 : (argsort key (List.finRange N)).Nodup :=
    ((argsort_perm key (List.finRange N)).nodup_iff).2 (List.nodup_finRange N)
  have h1 : ((negSlice n (argsort key (List.finRange N))).reverse).Nodup := by
    rw [List.nodup_reverse]
    exact h0.sublist (negSlice_sublist _ _)
  exact h1.sublist (List.filter_sublist _)

theorem topNPos_mem_pos {N : ℕ} (key : Fin N → ℚ) (n : ℕ) {i : Fin N}
    (h : i ∈ topNPos key n) : 0 < key i := by
  unfold topNPos at h
  have := List.of_mem_filter h
  simpa using this

theorem topNPos_eq_nil {N : ℕ} (key : Fin N → ℚ) (n : ℕ)
    (h : ∀ i : Fin N, key i = 0) : topNPos key n = [] := by
  unfold topNPos
  rw [List.filter_eq_nil_iff]
  intro i _
  simp [h i]

/-!
## Rating store and fitted-model state

A fitted `UserBasedCF` / `ItemBasedCF` instance (`user_based.py` /
`item_based.py`) carries a sparse user-item matrix, a similarity matrix,
the `user_id_map` / `anime_id_map` dictionaries and the
`reverse_anime_map`.  The sparse matrix is embedded as a total function
with `0` meaning "no stored interaction" (a stored rating is in `[1,10]`,
so `0` never denotes a stored value — this matches `nonzero()` /
`> 0` use in the source).
-/

/-- Fitted state of `UserBasedCF` (`user_based.py`). -/
structure UserBasedCF where
  nUsers : ℕ
  nItems : ℕ
  /-- `k_neighbors` hyperparameter. -/
  k : ℕ
  /-- `user_item_matrix` (0 = absent). -/
  R : Fin nUsers → Fin nItems → ℚ
  /-- `user_similarity` (user × user). -/
  S : Fin nUsers → Fin nUsers → ℚ
  /-- `user_id_map` lookup. -/
  userIdOf : ℤ → Option (Fin nUsers)
  /-- `anime_id_map` lookup. -/
  itemIdOf : ℤ → Option (Fin nItems)
  /-- `reverse_anime_map`. -/
  itemIdRev : Fin nItems → ℤ

/-- Fitted state of `ItemBasedCF` (`item_based.py`); `S` is item × item,
`k` is `k_similar`. -/
structure ItemBasedCF where
  nUsers : ℕ
  nItems : ℕ
  k : ℕ
  R : Fin nUsers → Fin nItems → ℚ
  S : Fin nItems → Fin nItems → ℚ
  userIdOf : ℤ → Option (Fin nUsers)
  itemIdOf : ℤ → Option (Fin nItems)
  itemIdRev : Fin nItems → ℤ

/-- `UserBasedCF.predict` (`user_based.py` lines 126-182): unknown ids give
the sentinel `0`; otherwise take the users who rated the item with
positive similarity to the target (self excluded), keep the `k` most
similar (`np.argsort(valid_sims)[-k:]` via `negSlice`, which keeps all of
them when `k = 0`), and return the similarity-weighted average of their
ratings clipped to `[1, 10]`. -/
def userPredict (m : UserBasedCF) (uid aid : ℤ) : ℚ :=
  match m.userIdOf uid, m.itemIdOf aid with
  | some u, some i =>
    let valid := (List.finRange m.nUsers).filter
      (fun v => decide (0 < m.R v i) && decide (0 < m.S u v) && decide (v ≠ u))
    if valid = [] then 0
    else
      let chosen := if m.k < valid.length
        then negSlice m.k (argsort (fun v => m.S u v) valid)
        else valid
      let simSum := (chosen.map (fun v => |m.S u v|)).sum
      if simSum = 0 then 0
      else clip 1 10 (((chosen.map (fun v => m.S u v * m.R v i)).sum) / simSum)
  | _, _ => 0

/-- The per-item value of the vectorized score array computed inside
`UserBasedCF.recommend` (`user_based.py` lines 199-232): global top-`k`
neighbors by similarity with self forced to `-1`, restricted to positive
similarities; entry `i` of
`neighbor_ratings.T.dot(top_k_sims) / sim_sum` clipped to `[0, 10]`,
with already-rated entries zeroed when `excl` is set.
In `ℚ`, division by a zero `sim_sum` yields `0`, matching the early
`return []` of the source on those degenerate branches. -/
def vecScore (m : UserBasedCF) (u : Fin m.nUsers) (i : Fin m.nItems) : ℚ :=
  let sims : Fin m.nUsers → ℚ := fun v => if v = u then -1 else m.S u v
  let topk := (negSlice m.k (argsort sims (List.finRange m.nUsers))).filter
      (fun v => decide (0 < sims v))
  clip 0 10 (((topk.map (fun v => sims v * m.R v i)).sum) / ((topk.map sims).sum))

/-- `vecScore` with the `exclude_rated` zeroing applied. -/
def vecScoreExcl (m : UserBasedCF) (u : Fin m.nUsers) (excl : Bool)
    (i : Fin m.nItems) : ℚ :=
  if excl ∧ m.R u i ≠ 0 then 0 else vecScore m u i

/-- `UserBasedCF.recommend` (`user_based.py` lines 184-243): the vectorized
batch recommendation.  Self-similarity is forced to `-1`, the global top-`k`
neighbors are taken (`np.argsort(user_sims)[-k:]`), negatives are filtered,
the score vector is one matrix-vector product divided by the total kept
similarity mass, clipped to `[0, 10]`; rated items are zeroed when
`exclude_rated`, and the top `n` strictly positive entries are returned
best-first as `(anime_id, score)` pairs (every positive entry when
`n = 0`, since `[-0:]` slices the whole array). -/
def userRecommend (m : UserBasedCF) (uid : ℤ) (n : ℕ) (excl : Bool) :
    List (ℤ × ℚ) :=
  match m.userIdOf uid with
  | none => []
  | some u =>
    let sims : Fin m.nUsers → ℚ := fun v => if v = u then -1 else m.S u v
    let topk := (negSlice m.k (argsort sims (List.finRange m.nUsers))).filter
        (fun v => decide (0 < sims v))
    if topk = [] then []
    else
      let simSum := (topk.map sims).sum
      if simSum = 0 then []
      else
        let preds : Fin m.nItems → ℚ := fun i =>
          clip 0 10 (((topk.map (fun v => sims v * m.R v i)).sum) / simSum)
        let preds2 : Fin m.nItems → ℚ := fun i =>
          if excl ∧ m.R u i ≠ 0 then 0 else preds i
        (topNPos preds2 n).map (fun i => (m.itemIdRev i, preds2 i))

/-- The naive per-item loop the specification asserts `recommend` to be
equivalent to, built from the claim's own words: call `predict` on every
candidate item, exclude rated items when requested, take the top `n` by
predicted rating (same deterministic top-`n` machinery, keeping only
positive predictions since `0` is the "cannot predict" sentinel). -/
def naiveRecommend (m : UserBasedCF) (uid : ℤ) (n : ℕ) (excl : Bool) :
    List (ℤ × ℚ) :=
  match m.userIdOf uid with
  | none => []
  | some u =>
    let score : Fin m.nItems → ℚ := fun i =>
      if excl ∧ m.R u i ≠ 0 then 0 else userPredict m uid (m.itemIdRev i)
    (topNPos score n).map (fun i => (m.itemIdRev i, score i))

/-- `ItemBasedCF.predict` (`item_based.py` lines 127-182): among the items
the user rated, keep the `k` most similar to the target
(`np.argsort(item_sims)[-k:]` via `negSlice`, all of them when `k = 0`),
then filter positive similarities and return the weighted average clipped
to `[1, 10]`. -/
def itemPredict (m : ItemBasedCF) (uid aid : ℤ) : ℚ :=
  match m.userIdOf uid, m.itemIdOf aid with
  | some u, some i =>
    let rated := (List.finRange m.nItems).filter (fun j => decide (m.R u j ≠ 0))
    if rated = [] then 0
    else
      let chosen := if m.k < rated.length
        then negSlice m.k (argsort (fun j => m.S i j) rated)
        else rated
      let pos := chosen.filter (fun j => decide (0 < m.S i j))
      if pos = [] then 0
      else
        let simSum := (pos.map (fun j => m.S i j)).sum
        if simSum = 0 then 0
        else clip 1 10 (((pos.map (fun j => m.S i j * m.R u j)).sum) / simSum)
  | _, _ => 0

/-- `ItemBasedCF.recommend` (`item_based.py` lines 184-250): vectorized
scores over all items from the user's rated items,
`item_sims.T.dot(user_ratings)` over `np.abs(item_sims).sum(axis=0)` with
zero denominators replaced by `1e-10`, clipped to `[0, 10]`, rated items
zeroed under `exclude_rated`, top `n` positive entries best-first
(every positive entry when `n = 0`, since `[-0:]` slices the whole
array). -/
def itemRecommend (m : ItemBasedCF) (uid : ℤ) (n : ℕ) (excl : Bool) :
    List (ℤ × ℚ) :=
  match m.userIdOf uid with
  | none => []
  | some u =>
    let rated := (List.finRange m.nItems).filter (fun j => decide (m.R u j ≠ 0))
    if rated = [] then []
    else
      let wsum : Fin m.nItems → ℚ := fun i =>
        (rated.map (fun j => m.S j i * m.R u j)).sum
      let ssum : Fin m.nItems → ℚ := fun i =>
        (rated.map (fun j => |m.S j i|)).sum
      let ssumEps : Fin m.nItems → ℚ := fun i =>
        if ssum i = 0 then 1 / 10 ^ 10 else ssum i
      let preds : Fin m.nItems → ℚ := fun i => clip 0 10 (wsum i / ssumEps i)
      let preds2 : Fin m.nItems → ℚ := fun i =>
        if excl ∧ m.R u i ≠ 0 then 0 else preds i
      (topNPos preds2 n).map (fun i => (m.itemIdRev i, preds2 i))

/-!
## Hybrid combiner (`hybrid.py`)
-/

/-- State of `HybridWeightedCF`: the two fitted sub-models and the
(already normalized) blending weights. -/
structure HybridWeightedCF where
  userModel : UserBasedCF
  itemModel : ItemBasedCF
  wU : ℚ
  wI : ℚ

/-- The `HybridWeightedCF.__init__` weight normalization
(`hybrid.py` lines 46-50): divide both weights by their sum when the sum
is positive, otherwise keep them as given. -/
def mkHybrid (mu : UserBasedCF) (mi : ItemBasedCF) (a b : ℚ) :
    HybridWeightedCF :=
  if 0 < a + b then ⟨mu, mi, a / (a + b), b / (a + b)⟩ else ⟨mu, mi, a, b⟩

/-- `HybridWeightedCF.predict` (`hybrid.py` lines 56-89): weighted average
when both sub-predictions are positive, the surviving one when exactly one
is, the sentinel `0` otherwise. -/
def hybridPredict (h : HybridWeightedCF) (uid aid : ℤ) : ℚ :=
  let up := userPredict h.userModel uid aid
  let ip := itemPredict h.itemModel uid aid
  if 0 < up ∧ 0 < ip then h.wU * up + h.wI * ip
  else if 0 < up then up
  else if 0 < ip then ip
  else 0

/-- One step of the dict merge in `HybridWeightedCF.recommend`
(`hybrid.py` lines 119-124): add the item-based contribution for one
`(anime_id, score)` pair into the accumulated association list. -/
def hybridMergeStep (wI : ℚ) (acc : List (ℤ × ℚ)) (p : ℤ × ℚ) :
    List (ℤ × ℚ) :=
  if acc.any (fun q => q.1 == p.1) then
    acc.map (fun q => if q.1 = p.1 then (q.1, q.2 + wI * p.2) else q)
  else acc ++ [(p.1, wI * p.2)]

/-- `HybridWeightedCF.recommend` (`hybrid.py` lines 91-129): oversample
both sub-models at `2n`, merge per-item weighted scores into a dict
(insertion-ordered association list), sort by score descending and keep
the first `n`.  Python's `sorted` is stable; the embedding uses the stable
insertion sort with the same descending-by-score key. -/
def hybridRecommend (h : HybridWeightedCF) (uid : ℤ) (n : ℕ) (excl : Bool) :
    List (ℤ × ℚ) :=
  let ur := userRecommend h.userModel uid (2 * n) excl
  let ir := itemRecommend h.itemModel uid (2 * n) excl
  let base := ur.map (fun p => (p.1, h.wU * p.2))
  let merged := ir.foldl (hybridMergeStep h.wI) base
  (List.insertionSort (fun p q : ℤ × ℚ => q.2 ≤ p.2) merged).take n

/-!
## Embedding predictor (`neural_cf.py`)

The network forward pass is a float-valued neural computation; it is kept
as an uninterpreted parameter `forward` of the state.  The claims about
`NeuralCF` concern only the identifier-map guards and the batched
top-`n` selection, which are embedded faithfully around it.
-/

/-- Fitted serving state of `NeuralCF`: id maps (present on every fitted
model), the list of known item ids (`item_id_map.keys()`), and the
network forward pass as an oracle from mapped indices to a raw score. -/
structure NeuralCF where
  userIdOf : ℤ → Option ℕ
  itemIdOf : ℤ → Option ℕ
  itemIds : List ℤ
  forward : ℕ → ℕ → ℚ

/-- `NeuralCF.predict` (`neural_cf.py` lines 242-278, fitted path):
unknown ids give the sentinel `0`; otherwise the forward output clamped
to `[1, 10]` via `max(1.0, min(10.0, rating))`. -/
def neuralPredict (m : NeuralCF) (uid aid : ℤ) : ℚ :=
  match m.userIdOf uid, m.itemIdOf aid with
  | some u, some i => max 1 (min 10 (m.forward u i))
  | _, _ => 0

/-- `NeuralCF.recommend` (`neural_cf.py` lines 280-347, fitted path, no
explicit candidate list): unknown user gives `[]`; otherwise one batched
forward pass over all known items, clip to `[1, 10]`, stable sort by score
descending, first `n`.  (`exclude_rated` is accepted but unused by the
source.) -/
def neuralRecommend (m : NeuralCF) (uid : ℤ) (n : ℕ) : List (ℤ × ℚ) :=
  match m.userIdOf uid with
  | none => []
  | some u =>
    let valid := m.itemIds.filterMap
      (fun aid => (m.itemIdOf aid).map (fun i => (aid, i)))
    if valid = [] then []
    else
      let scores := valid.map (fun p => (p.1, clip 1 10 (m.forward u p.2)))
      (List.insertionSort (fun p q : ℤ × ℚ => q.2 ≤ p.2) scores).take n

/-!
## Certifying that a concrete model state is a fitted state

`fit` computes `user_similarity = cosine_similarity(user_item_matrix)`.
Cosine values are generally irrational; a concrete rational similarity
matrix is certified to be *the* cosine matrix of `R` through a
square-free characterization: `S a b` has the sign of the dot product of
rows `a` and `b`, its square times the product of the rows' squared norms
equals the squared dot product, and it is `0` against an all-zero row
(sklearn's convention).  Over `ℚ` this pins `S` uniquely.
-/

/-- Dot product of two rows of the interaction matrix. -/
def rowDot (m : UserBasedCF) (a b : Fin m.nUsers) : ℚ :=
  ((List.finRange m.nItems).map (fun i => m.R a i * m.R b i)).sum

/-- `S` is the cosine similarity matrix of `R` (`_compute_similarity`,
`user_based.py` lines 100-109, `similarity='cosine'`). -/
def IsCosineSim (m : UserBasedCF) : Prop :=
  ∀ a b : Fin m.nUsers,
    ((rowDot m a a = 0 ∨ rowDot m b b = 0) → m.S a b = 0) ∧
    (m.S a b) ^ 2 * (rowDot m a a * rowDot m b b) = (rowDot m a b) ^ 2 ∧
    (0 ≤ rowDot m a b → 0 ≤ m.S a b) ∧ (rowDot m a b ≤ 0 → m.S a b ≤ 0)

instance (m : UserBasedCF) : Decidable (IsCosineSim m) := by
  unfold IsCosineSim
  infer_instance

/-- The identifier maps of a fitted model form a bijection between the
external item ids and the dense indices (`fit`, `user_based.py`
lines 54-61). -/
def ItemMapsConsistent (m : UserBasedCF) : Prop :=
  ∀ i : Fin m.nItems, m.itemIdOf (m.itemIdRev i) = some i

instance (m : UserBasedCF) : Decidable (ItemMapsConsistent m) := by
  unfold ItemMapsConsistent
  infer_instance

/-!
## Concrete fitted models used as witnesses and counterexamples

`exModelA` is the fitted `UserBasedCF (k_neighbors := 2)` state obtained
from the interaction set
`{(u 0, a 101, 8), (u 1, a 101, 6), (u 1, a 102, 8), (u 2, a 101, 4)}`:
row vectors `(8,0)`, `(6,8)`, `(4,0)` whose pairwise cosines are all
rational (`cos(0,1) = 3/5`, `cos(0,2) = 1`, `cos(1,2) = 3/5`).

`exModelB` is the fitted `UserBasedCF (k_neighbors := 2)` state from
`{(u 0, a 103, 1), (u 1, a 101, 2), (u 1, a 102, 2), (u 1, a 103, 1)}`:
rows `(0,0,1)` and `(2,2,1)`, cosine `1/3`.
-/

/-- Interaction matrix of `exModelA`. -/
def exRA : Fin 3 → Fin 2 → ℚ := fun u i =>
  match u, i with
  | 0, 0 => 8 | 0, 1 => 0
  | 1, 0 => 6 | 1, 1 => 8
  | 2, 0 => 4 | 2, 1 => 0

/-- Cosine user-similarity matrix of `exRA`. -/
def exSA : Fin 3 → Fin 3 → ℚ := fun a b =>
  match a, b with
  | 0, 0 => 1     | 0, 1 => 3 / 5 | 0, 2 => 1
  | 1, 0 => 3 / 5 | 1, 1 => 1     | 1, 2 => 3 / 5
  | 2, 0 => 1     | 2, 1 => 3 / 5 | 2, 2 => 1

/-- Fitted user-based model on the first example data set. -/
@[reducible] def exModelA : UserBasedCF where
  nUsers := 3
  nItems := 2
  k := 2
  R := exRA
  S := exSA
  userIdOf := fun uid =>
    if uid = 0 then some 0 else if uid = 1 then some 1 else
    if uid = 2 then some 2 else none
  itemIdOf := fun aid =>
    if aid = 101 then some 0 else if aid = 102 then some 1 else none
  itemIdRev := fun i => match i with | 0 => 101 | 1 => 102

/-- Interaction matrix of `exModelB`. -/
def exRB : Fin 2 → Fin 3 → ℚ := fun u i =>
  match u, i with
  | 0, 0 => 0 | 0, 1 => 0 | 0, 2 => 1
  | 1, 0 => 2 | 1, 1 => 2 | 1, 2 => 1

/-- Cosine user-similarity matrix of `exRB`. -/
def exSB : Fin 2 → Fin 2 → ℚ := fun a b =>
  match a, b with
  | 0, 0 => 1     | 0, 1 => 1 / 3
  | 1, 0 => 1 / 3 | 1, 1 => 1

/-- Fitted user-based model on the second example data set. -/
@[reducible] def exModelB : UserBasedCF where
  nUsers := 2
  nItems := 3
  k := 2
  R := exRB
  S := exSB
  userIdOf := fun uid =>
    if uid = 0 then some 0 else if uid = 1 then some 1 else none
  itemIdOf := fun aid =>
    if aid = 101 then some 0 else if aid = 102 then some 1 else
    if aid = 103 then some 2 else none
  itemIdRev := fun i => match i with | 0 => 101 | 1 => 102 | 2 => 103

/-!
## C1 — vectorized `recommend` vs the naive `predict` loop
-/

theorem vecScoreExcl_eq_zero (m : UserBasedCF) (u : Fin m.nUsers) (excl : Bool)
    (h0 : (((negSlice m.k (argsort (fun v => if v = u then (-1 : ℚ) else m.S u v)
        (List.finRange m.nUsers))).filter
        (fun v => decide (0 < (if v = u then (-1 : ℚ) else m.S u v)))).map
        (fun v => if v = u then (-1 : ℚ) else m.S u v)).sum = 0) :
    ∀ i : Fin m.nItems, vecScoreExcl m u excl i = 0 := by
  intro i
  simp only [vecScoreExcl, vecScore]
  rw [h0]
  by_cases hr : excl = true ∧ m.R u i ≠ 0
  · simp [hr]
  · rw [if_neg hr, div_zero]
    norm_num [clip]

/-- C1 (amended): for every fitted model and known user, the vectorized
`UserBasedCF.recommend` equals the per-item loop over `vecScoreExcl` — the
batched score whose neighbor set is the *global* top-`k`
positively-similar users and whose denominator is the *total* kept
similarity mass — rather than the per-item loop over `predict`. -/
theorem userRecommend_eq_topN_vecScore (m : UserBasedCF) (uid : ℤ) (n : ℕ)
    (excl : Bool) (u : Fin m.nUsers) (h : m.userIdOf uid = some u) :
    userRecommend m uid n excl
      = (topNPos (vecScoreExcl m u excl) n).map
          (fun i => (m.itemIdRev i, vecScoreExcl m u excl i)) := by
  unfold userRecommend
  rw [h]
  simp only []
  split_ifs with h1 h2
  · rw [topNPos_eq_nil, List.map_nil]
    exact vecScoreExcl_eq_zero m u excl (by rw [h1]; simp)
  · rw [topNPos_eq_nil, List.map_nil]
    exact vecScoreExcl_eq_zero m u excl h2
  · rfl

/-- C1 witness: the amended equivalence evaluated on the concrete fitted
model `exModelA`. -/
theorem userRecommend_eq_topN_vecScore_witness :
    exModelA.userIdOf 0 = some (0 : Fin 3) ∧
    userRecommend exModelA 0 1 true
      = (topNPos (vecScoreExcl exModelA (0 : Fin 3) true) 1).map
          (fun i => (exModelA.itemIdRev i, vecScoreExcl exModelA (0 : Fin 3) true i)) :=
  ⟨by decide, userRecommend_eq_topN_vecScore exModelA 0 1 true (0 : Fin 3) (by decide)⟩

/-- C1 counterexample: on the fitted model `exModelA` (its `S` is certified
to be the cosine matrix of its `R`, and its id maps are a bijection), the
vectorized `recommend` and the naive per-item `predict` loop disagree for
user `0` with `n = 1`, `exclude_rated = True`: the vectorized path scores
item `102` at `3` (its denominator counts neighbor `2`, who never rated
item `102`), while `predict`, hence the naive loop, scores it at `8`. -/
theorem userRecommend_ne_naiveRecommend :
    IsCosineSim exModelA ∧ ItemMapsConsistent exModelA ∧
    userRecommend exModelA 0 1 true = [(102, 3)] ∧
    naiveRecommend exModelA 0 1 true = [(102, 8)] ∧
    userRecommend exModelA 0 1 true ≠ naiveRecommend exModelA 0 1 true :=
  ⟨by decide, by decide, by decide, by decide, by decide⟩

/-!
## C4 — shape of every recommendation list
-/

/-- Per-item reading of the vectorized score array of
`ItemBasedCF.recommend` (`item_based.py` lines 202-239). -/
def itemVecScoreExcl (m : ItemBasedCF) (u : Fin m.nUsers) (excl : Bool)
    (i : Fin m.nItems) : ℚ :=
  let rated := (List.finRange m.nItems).filter (fun j => decide (m.R u j ≠ 0))
  let wsum := (rated.map (fun j => m.S j i * m.R u j)).sum
  let ssum := (rated.map (fun j => |m.S j i|)).sum
  let ssumEps := if ssum = 0 then (1 : ℚ) / 10 ^ 10 else ssum
  if excl ∧ m.R u i ≠ 0 then 0 else clip 0 10 (wsum / ssumEps)

/-- Helper: `userRecommend` for a known user is the top-`n` selection over
`vecScoreExcl` (same statement as the C1 theorem, kept separate so that
other developments can build on it). -/
theorem userRecommend_eq_helper (m : UserBasedCF) (uid : ℤ) (n : ℕ)
    (excl : Bool) (u : Fin m.nUsers) (h : m.userIdOf uid = some u) :
    userRecommend m uid n excl
      = (topNPos (vecScoreExcl m u excl) n).map
          (fun i => (m.itemIdRev i, vecScoreExcl m u excl i)) := by
  unfold userRecommend
  rw [h]
  simp only []
  split_ifs with h1 h2
  · rw [topNPos_eq_nil, List.map_nil]
    exact vecScoreExcl_eq_zero m u excl (by rw [h1]; simp)
  · rw [topNPos_eq_nil, List.map_nil]
    exact vecScoreExcl_eq_zero m u excl h2
  · rfl

/-- Helper: `itemRecommend` for a known user is the top-`n` selection over
`itemVecScoreExcl` (when the user rated nothing every score is `0` and
both sides are empty). -/
theorem itemRecommend_eq_helper (m : ItemBasedCF) (uid : ℤ) (n : ℕ)
    (excl : Bool) (u : Fin m.nUsers) (h : m.userIdOf uid = some u) :
    itemRecommend m uid n excl
      = (topNPos (itemVecScoreExcl m u excl) n).map
          (fun i => (m.itemIdRev i, itemVecScoreExcl m u excl i)) := by
  unfold itemRecommend
  rw [h]
  simp only []
  split_ifs with h1
  · rw [topNPos_eq_nil, List.map_nil]
    intro i
    unfold itemVecScoreExcl
    simp only []
    rw [h1]
    by_cases hr : excl = true ∧ m.R u i ≠ 0
    · simp [hr]
    · rw [if_neg hr]
      norm_num [clip]
  · rfl

/-- The shape every recommendation list must have: at most `n` entries,
scores non-increasing, item ids pairwise distinct. -/
def RecListOk (l : List (ℤ × ℚ)) (n : ℕ) : Prop :=
  l.length ≤ n ∧ l.Pairwise (fun a b => b.2 ≤ a.2) ∧ (l.map Prod.fst).Nodup

theorem topNPos_map_ok {N : ℕ} (key : Fin N → ℚ) (n : ℕ) (rev : Fin N → ℤ)
    (hinj : Function.Injective rev) (hn : 1 ≤ n) :
    RecListOk ((topNPos key n).map (fun i => (rev i, key i))) n := by
  refine ⟨?_, ?_, ?_⟩
  · rw [List.length_map]
    exact topNPos_length key n hn
  · rw [List.pairwise_map]
    exact topNPos_sorted key n
  · rw [List.map_map]
    exact (topNPos_nodup key n).map (fun a b hab => hinj hab)

/-- The item ids of `userRecommend` are pairwise distinct, for *every*
`n` (also `n = 0`, where the `[-0:]` slice keeps everything). -/
theorem userRecommend_keys_nodup (m : UserBasedCF) (uid : ℤ) (n : ℕ)
    (excl : Bool) (hinj : Function.Injective m.itemIdRev) :
    ((userRecommend m uid n excl).map Prod.fst).Nodup := by
  cases h : m.userIdOf uid with
  | none =>
    unfold userRecommend
    rw [h]
    simp
  | some u =>
    rw [userRecommend_eq_helper m uid n excl u h, List.map_map]
    exact (topNPos_nodup _ n).map (fun a b hab => hinj hab)

theorem userRecommend_ok (m : UserBasedCF) (uid : ℤ) (n : ℕ) (excl : Bool)
    (hinj : Function.Injective m.itemIdRev) (hn : 1 ≤ n) :
    RecListOk (userRecommend m uid n excl) n := by
  cases h : m.userIdOf uid with
  | none =>
    unfold userRecommend
    rw [h]
    exact ⟨by simp, by simp, by simp⟩
  | some u =>
    rw [userRecommend_eq_helper m uid n excl u h]
    exact topNPos_map_ok _ n _ hinj hn

theorem itemRecommend_ok (m : ItemBasedCF) (uid : ℤ) (n : ℕ) (excl : Bool)
    (hinj : Function.Injective m.itemIdRev) (hn : 1 ≤ n) :
    RecListOk (itemRecommend m uid n excl) n := by
  cases h : m.userIdOf uid with
  | none =>
    unfold itemRecommend
    rw [h]
    exact ⟨by simp, by simp, by simp⟩
  | some u =>
    rw [itemRecommend_eq_helper m uid n excl u h]
    exact topNPos_map_ok _ n _ hinj hn

theorem hybridMerge_keys_nodup (wI : ℚ) (ir : List (ℤ × ℚ)) :
    ∀ acc : List (ℤ × ℚ), ((acc.map Prod.fst).Nodup) →
      (((ir.foldl (hybridMergeStep wI) acc).map Prod.fst).Nodup) := by
  induction ir with
  | nil => intro acc h; exact h
  | cons p rest ih =>
    intro acc h
    rw [List.foldl_cons]
    apply ih
    unfold hybridMergeStep
    split_ifs with hany
    · have : (acc.map (fun q => if q.1 = p.1 then (q.1, q.2 + wI * p.2) else q)).map
          Prod.fst = acc.map Prod.fst := by
        rw [List.map_map]
        apply List.map_congr_left
        intro q _
        by_cases hq : q.1 = p.1 <;> simp [hq]
      rw [this]
      exact h
    · rw [List.map_append, List.nodup_append]
      refine ⟨h, by simp, ?_⟩
      intro x hx
      simp only [List.map_cons, List.map_nil, List.mem_singleton]
      intro hx1
      rw [List.mem_map] at hx
      obtain ⟨q, hq, hqx⟩ := hx
      exact hany (List.any_eq_true.2 ⟨q, hq, by simp [hqx, hx1]⟩)

theorem hybridRecommend_ok (h : HybridWeightedCF) (uid : ℤ) (n : ℕ)
    (excl : Bool) (hiU : Function.Injective h.userModel.itemIdRev) :
    RecListOk (hybridRecommend h uid n excl) n := by
  unfold hybridRecommend
  simp only []
  haveI : IsTotal (ℤ × ℚ) (fun p q : ℤ × ℚ => q.2 ≤ p.2) :=
    ⟨fun a b => le_total b.2 a.2⟩
  haveI : IsTrans (ℤ × ℚ) (fun p q : ℤ × ℚ => q.2 ≤ p.2) :=
    ⟨fun a b c hab hbc => le_trans hbc hab⟩
  refine ⟨?_, ?_, ?_⟩
  · rw [List.length_take]
    omega
  · exact (List.sorted_insertionSort _ _).sublist (List.take_sublist _ _)
  · have hbase : (((userRecommend h.userModel uid (2 * n) excl).map
        (fun p => (p.1, h.wU * p.2))).map Prod.fst).Nodup := by
      rw [List.map_map]
      exact userRecommend_keys_nodup h.userModel uid (2 * n) excl hiU
    have hm := hybridMerge_keys_nodup h.wI
      (itemRecommend h.itemModel uid (2 * n) excl) _ hbase
    have hsorted : ((List.insertionSort (fun p q : ℤ × ℚ => q.2 ≤ p.2)
        ((itemRecommend h.itemModel uid (2 * n) excl).foldl
          (hybridMergeStep h.wI)
          ((userRecommend h.userModel uid (2 * n) excl).map
            (fun p => (p.1, h.wU * p.2))))).map Prod.fst).Nodup :=
      ((List.perm_insertionSort _ _).map Prod.fst).nodup_iff.2 hm
    rw [List.map_take]
    exact hsorted.sublist (List.take_sublist _ _)

/-- C4 (amended): for every fitted user-based, item-based and hybrid model
(with bijective reverse item maps, as `fit` builds them), every user and
every `n ≥ 1`, `recommend` returns at most `n` pairs, with
*non-increasing* scores (strictness fails on ties, see the counterexample)
and pairwise-distinct item ids.  The restriction to `n ≥ 1` is forced: at
`n = 0` numpy's `[-0:]` slice keeps the whole score array and the
neighborhood models emit *every* positively-scored item (second part of
the counterexample); the score order and distinctness still hold there. -/
theorem recommend_shape (h : HybridWeightedCF) (uid : ℤ) (n : ℕ)
    (excl : Bool) (hiU : Function.Injective h.userModel.itemIdRev)
    (hiI : Function.Injective h.itemModel.itemIdRev) (hn : 1 ≤ n) :
    RecListOk (userRecommend h.userModel uid n excl) n ∧
    RecListOk (itemRecommend h.itemModel uid n excl) n ∧
    RecListOk (hybridRecommend h uid n excl) n :=
  ⟨userRecommend_ok h.userModel uid n excl hiU hn,
   itemRecommend_ok h.itemModel uid n excl hiI hn,
   hybridRecommend_ok h uid n excl hiU⟩

/-- A small fitted item-based model used in witnesses: rows `(8,0)` and
`(6,8)`; the default `adjusted_cosine` mean-centers each user's row over
its stored entries (`(0,·)` and `(-1,1)`), giving item-item similarity
`-1` between the two items. -/
@[reducible] def exItemModel : ItemBasedCF where
  nUsers := 2
  nItems := 2
  k := 30
  R := fun u i =>
    match u, i with
    | 0, 0 => 8 | 0, 1 => 0
    | 1, 0 => 6 | 1, 1 => 8
  S := fun a b =>
    match a, b with
    | 0, 0 => 1  | 0, 1 => -1
    | 1, 0 => -1 | 1, 1 => 1
  userIdOf := fun uid =>
    if uid = 0 then some 0 else if uid = 1 then some 1 else none
  itemIdOf := fun aid =>
    if aid = 101 then some 0 else if aid = 102 then some 1 else none
  itemIdRev := fun i => match i with | 0 => 101 | 1 => 102

/-- A hybrid model over the two concrete fitted sub-models with the default
`0.5 / 0.5` weights of `HybridWeightedCF.__init__`. -/
@[reducible] def exHybrid : HybridWeightedCF :=
  mkHybrid exModelA exItemModel (1 / 2) (1 / 2)

/-- C4 witness: the shape property evaluated on the concrete models. -/
theorem recommend_shape_witness :
    Function.Injective exHybrid.userModel.itemIdRev ∧
    Function.Injective exHybrid.itemModel.itemIdRev ∧
    (1 ≤ 2) ∧
    (RecListOk (userRecommend exHybrid.userModel 0 2 true) 2 ∧
     RecListOk (itemRecommend exHybrid.itemModel 0 2 true) 2 ∧
     RecListOk (hybridRecommend exHybrid 0 2 true) 2) :=
  ⟨by decide, by decide, by decide,
   recommend_shape exHybrid 0 2 true (by decide) (by decide) (by decide)⟩

/-- C4 counterexample, two parts.  (i) On the fitted model `exModelB`
(cosine-certified, bijective maps) the recommendation list for user `0`
is `[(102, 2), (101, 2)]` — two *equal* scores, so the claimed strictly
descending order fails; only the non-increasing order holds.  (ii) On the
fitted model `exModelA`, `recommend(0, n := 0)` returns `[(102, 3)]` of
length `1 > 0`: Python's `[-0:]` slice keeps the whole score array, so
the claimed length bound `≤ n` fails at `n = 0`. -/
theorem userRecommend_not_strictly_sorted :
    IsCosineSim exModelB ∧ ItemMapsConsistent exModelB ∧
    userRecommend exModelB 0 2 true = [(102, 2), (101, 2)] ∧
    ¬ (userRecommend exModelB 0 2 true).Pairwise (fun a b => b.2 < a.2) ∧
    userRecommend exModelA 0 0 true = [(102, 3)] ∧
    ¬ (userRecommend exModelA 0 0 true).length ≤ 0 :=
  ⟨by decide, by decide, by decide, by decide, by decide, by decide⟩

/-!
## C5 — `exclude_rated` really excludes the training interactions
-/

/-- C5: with `exclude_rated = True`, no recommended item id corresponds to
an item with a stored interaction in the user's row of the training
matrix, for both neighborhood models. -/
theorem excludeRated_excludes (mu : UserBasedCF) (mi : ItemBasedCF)
    (uid : ℤ) (n : ℕ)
    (u : Fin mu.nUsers) (hu : mu.userIdOf uid = some u)
    (hinjU : Function.Injective mu.itemIdRev)
    (w : Fin mi.nUsers) (hw : mi.userIdOf uid = some w)
    (hinjI : Function.Injective mi.itemIdRev) :
    (∀ i : Fin mu.nItems, mu.R u i ≠ 0 →
      mu.itemIdRev i ∉ (userRecommend mu uid n true).map Prod.fst) ∧
    (∀ i : Fin mi.nItems, mi.R w i ≠ 0 →
      mi.itemIdRev i ∉ (itemRecommend mi uid n true).map Prod.fst) := by
  constructor
  · intro i hR hmem
    rw [userRecommend_eq_helper mu uid n true u hu, List.map_map,
      List.mem_map] at hmem
    obtain ⟨j, hj, hji⟩ := hmem
    have hpos := topNPos_mem_pos (vecScoreExcl mu u true) n hj
    have : j = i := hinjU hji
    subst this
    rw [vecScoreExcl, if_pos (by exact ⟨by trivial, hR⟩)] at hpos
    exact lt_irrefl 0 hpos
  · intro i hR hmem
    rw [itemRecommend_eq_helper mi uid n true w hw, List.map_map,
      List.mem_map] at hmem
    obtain ⟨j, hj, hji⟩ := hmem
    have hpos := topNPos_mem_pos (itemVecScoreExcl mi w true) n hj
    have : j = i := hinjI hji
    subst this
    rw [itemVecScoreExcl] at hpos
    simp only [] at hpos
    rw [if_pos (by exact ⟨by trivial, hR⟩)] at hpos
    exact lt_irrefl 0 hpos

/-- C5 witness: evaluated on the concrete fitted models (user `0` rated
item `101` in both). -/
theorem excludeRated_excludes_witness :
    exModelA.userIdOf 0 = some (0 : Fin 3) ∧
    exItemModel.userIdOf 0 = some (0 : Fin 2) ∧
    exModelA.R (0 : Fin 3) (0 : Fin 2) ≠ 0 ∧
    exItemModel.R (0 : Fin 2) (0 : Fin 2) ≠ 0 ∧
    exModelA.itemIdRev (0 : Fin 2) ∉
      (userRecommend exModelA 0 5 true).map Prod.fst ∧
    exItemModel.itemIdRev (0 : Fin 2) ∉
      (itemRecommend exItemModel 0 5 true).map Prod.fst :=
  ⟨by decide, by decide, by decide, by decide,
   (excludeRated_excludes exModelA exItemModel 0 5 (0 : Fin 3) (by decide)
     (by decide) (0 : Fin 2) (by decide) (by decide)).1 (0 : Fin 2) (by decide),
   (excludeRated_excludes exModelA exItemModel 0 5 (0 : Fin 3) (by decide)
     (by decide) (0 : Fin 2) (by decide) (by decide)).2 (0 : Fin 2) (by decide)⟩

/-!
## C6 — unknown identifiers: sentinel and empty list, never an exception
-/

/-- Fitted serving state of a small embedding predictor, used in
witnesses. -/
@[reducible] def exNeural : NeuralCF where
  userIdOf := fun uid => if uid = 0 then some 0 else none
  itemIdOf := fun aid => if aid = 101 then some 0 else none
  itemIds := [101]
  forward := fun _ _ => 7

/-- C6: for every fitted predictor (user-based, item-based, hybrid,
neural), an id missing from the identifier maps makes `predict` return the
sentinel `0` and makes `recommend` return `[]`.  The embedded functions
are total, so no exception path exists. -/
theorem unknown_id_sentinel (mu : UserBasedCF) (mi : ItemBasedCF)
    (h : HybridWeightedCF) (mn : NeuralCF) (uid aid : ℤ) (n : ℕ)
    (excl : Bool) :
    (mu.userIdOf uid = none ∨ mu.itemIdOf aid = none →
      userPredict mu uid aid = 0) ∧
    (mu.userIdOf uid = none → userRecommend mu uid n excl = []) ∧
    (mi.userIdOf uid = none ∨ mi.itemIdOf aid = none →
      itemPredict mi uid aid = 0) ∧
    (mi.userIdOf uid = none → itemRecommend mi uid n excl = []) ∧
    ((h.userModel.userIdOf uid = none ∨ h.userModel.itemIdOf aid = none) →
     (h.itemModel.userIdOf uid = none ∨ h.itemModel.itemIdOf aid = none) →
      hybridPredict h uid aid = 0) ∧
    (h.userModel.userIdOf uid = none → h.itemModel.userIdOf uid = none →
      hybridRecommend h uid n excl = []) ∧
    (mn.userIdOf uid = none ∨ mn.itemIdOf aid = none →
      neuralPredict mn uid aid = 0) ∧
    (mn.userIdOf uid = none → neuralRecommend mn uid n = []) := by
  have hup : ∀ (m : UserBasedCF), m.userIdOf uid = none ∨
      m.itemIdOf aid = none → userPredict m uid aid = 0 := by
    intro m hm
    unfold userPredict
    rcases hm with hm | hm <;> rw [hm] <;>
      cases m.userIdOf uid <;> cases m.itemIdOf aid <;> rfl
  have hur : ∀ (m : UserBasedCF) (q : ℕ), m.userIdOf uid = none →
      userRecommend m uid q excl = [] := by
    intro m q hm
    unfold userRecommend
    rw [hm]
  have hip : ∀ (m : ItemBasedCF), m.userIdOf uid = none ∨
      m.itemIdOf aid = none → itemPredict m uid aid = 0 := by
    intro m hm
    unfold itemPredict
    rcases hm with hm | hm <;> rw [hm] <;>
      cases m.userIdOf uid <;> cases m.itemIdOf aid <;> rfl
  have hir : ∀ (m : ItemBasedCF) (q : ℕ), m.userIdOf uid = none →
      itemRecommend m uid q excl = [] := by
    intro m q hm
    unfold itemRecommend
    rw [hm]
  refine ⟨hup mu, hur mu n, hip mi, hir mi n, ?_, ?_, ?_, ?_⟩
  · intro h1 h2
    unfold hybridPredict
    rw [hup h.userModel h1, hip h.itemModel h2]
    norm_num
  · intro h1 h2
    unfold hybridRecommend
    rw [hur h.userModel (2 * n) h1, hir h.itemModel (2 * n) h2]
    simp [List.insertionSort]
  · intro hm
    unfold neuralPredict
    rcases hm with hm | hm <;> rw [hm] <;>
      cases mn.userIdOf uid <;> cases mn.itemIdOf aid <;> rfl
  · intro hm
    unfold neuralRecommend
    rw [hm]

/-- C6 witness: the sentinel behavior evaluated at the unknown
id `999` against the concrete fitted models. -/
theorem unknown_id_sentinel_witness :
    exModelA.userIdOf 999 = none ∧
    exItemModel.userIdOf 999 = none ∧
    exNeural.userIdOf 999 = none ∧
    userPredict exModelA 999 101 = 0 ∧
    userRecommend exModelA 999 5 true = [] ∧
    itemPredict exItemModel 999 101 = 0 ∧
    itemRecommend exItemModel 999 5 true = [] ∧
    hybridPredict exHybrid 999 101 = 0 ∧
    hybridRecommend exHybrid 999 5 true = [] ∧
    neuralPredict exNeural 999 101 = 0 ∧
    neuralRecommend exNeural 999 5 = [] :=
  ⟨by decide, by decide, by decide,
   (unknown_id_sentinel exModelA exItemModel exHybrid exNeural 999 101 5
     true).1 (Or.inl (by decide)),
   (unknown_id_sentinel exModelA exItemModel exHybrid exNeural 999 101 5
     true).2.1 (by decide),
   (unknown_id_sentinel exModelA exItemModel exHybrid exNeural 999 101 5
     true).2.2.1 (Or.inl (by decide)),
   (unknown_id_sentinel exModelA exItemModel exHybrid exNeural 999 101 5
     true).2.2.2.1 (by decide),
   (unknown_id_sentinel exModelA exItemModel exHybrid exNeural 999 101 5
     true).2.2.2.2.1 (Or.inl (by decide)) (Or.inl (by decide)),
   (unknown_id_sentinel exModelA exItemModel exHybrid exNeural 999 101 5
     true).2.2.2.2.2.1 (by decide) (by decide),
   (unknown_id_sentinel exModelA exItemModel exHybrid exNeural 999 101 5
     true).2.2.2.2.2.2.1 (Or.inl (by decide)),
   (unknown_id_sentinel exModelA exItemModel exHybrid exNeural 999 101 5
     true).2.2.2.2.2.2.2 (by decide)⟩

/-!
## C2 — hybrid `predict` semantics
-/

theorem userPredict_nonneg (m : UserBasedCF) (uid aid : ℤ) :
    0 ≤ userPredict m uid aid := by
  unfold userPredict
  cases m.userIdOf uid <;> cases m.itemIdOf aid <;> simp only []
  any_goals exact le_refl 0
  split_ifs
  all_goals
    first
    | exact le_refl 0
    | (unfold clip
       rw [le_min_iff]
       exact ⟨by norm_num, le_trans (by norm_num) (le_max_left 1 _)⟩)

theorem itemPredict_nonneg (m : ItemBasedCF) (uid aid : ℤ) :
    0 ≤ itemPredict m uid aid := by
  unfold itemPredict
  cases m.userIdOf uid <;> cases m.itemIdOf aid <;> simp only []
  any_goals exact le_refl 0
  split_ifs
  all_goals
    first
    | exact le_refl 0
    | (unfold clip
       rw [le_min_iff]
       exact ⟨by norm_num, le_trans (by norm_num) (le_max_left 1 _)⟩)

/-- C2: for nonnegative constructor weights with positive sum (the source
normalizes them to sum to 1), `HybridWeightedCF.predict` is the weighted
average when both sub-predictions are positive, equals the surviving
sub-prediction when exactly one is, and equals the sentinel `0` *iff* both
sub-predictors return the sentinel. -/
theorem hybridPredict_spec (mu : UserBasedCF) (mi : ItemBasedCF) (a b : ℚ)
    (ha : 0 ≤ a) (hb : 0 ≤ b) (hab : 0 < a + b) (uid aid : ℤ) :
    (0 < userPredict mu uid aid → 0 < itemPredict mi uid aid →
      hybridPredict (mkHybrid mu mi a b) uid aid
        = (mkHybrid mu mi a b).wU * userPredict mu uid aid
          + (mkHybrid mu mi a b).wI * itemPredict mi uid aid) ∧
    (0 < userPredict mu uid aid → itemPredict mi uid aid = 0 →
      hybridPredict (mkHybrid mu mi a b) uid aid = userPredict mu uid aid) ∧
    (userPredict mu uid aid = 0 → 0 < itemPredict mi uid aid →
      hybridPredict (mkHybrid mu mi a b) uid aid = itemPredict mi uid aid) ∧
    (hybridPredict (mkHybrid mu mi a b) uid aid = 0 ↔
      userPredict mu uid aid = 0 ∧ itemPredict mi uid aid = 0) := by
  have hwU : (mkHybrid mu mi a b).wU = a / (a + b) := by
    unfold mkHybrid
    rw [if_pos hab]
  have hwI : (mkHybrid mu mi a b).wI = b / (a + b) := by
    unfold mkHybrid
    rw [if_pos hab]
  have hum : (mkHybrid mu mi a b).userModel = mu := by
    unfold mkHybrid
    split_ifs <;> rfl
  have him : (mkHybrid mu mi a b).itemModel = mi := by
    unfold mkHybrid
    split_ifs <;> rfl
  unfold hybridPredict
  rw [hum, him]
  refine ⟨?_, ?_, ?_, ?_⟩
  · intro h1 h2
    rw [if_pos ⟨h1, h2⟩]
  · intro h1 h2
    rw [if_neg (by rw [h2]; exact fun hh => lt_irrefl 0 hh.2), if_pos h1]
  · intro h1 h2
    rw [if_neg (by rw [h1]; exact fun hh => lt_irrefl 0 hh.1),
      if_neg (by rw [h1]; exact lt_irrefl 0), if_pos h2]
  · constructor
    · intro h0
      by_contra hcon
      rw [Classical.not_and_iff_or_not_not] at hcon
      have hu0 := userPredict_nonneg mu uid aid
      have hi0 := itemPredict_nonneg mi uid aid
      have hup : 0 < userPredict mu uid aid ∨ userPredict mu uid aid = 0 := by
        rcases lt_or_eq_of_le hu0 with hh | hh
        · exact Or.inl hh
        · exact Or.inr hh.symm
      have hip : 0 < itemPredict mi uid aid ∨ itemPredict mi uid aid = 0 := by
        rcases lt_or_eq_of_le hi0 with hh | hh
        · exact Or.inl hh
        · exact Or.inr hh.symm
      rcases hup with hup | hup
      · rcases hip with hip | hip
        · rw [if_pos ⟨hup, hip⟩, hwU, hwI] at h0
          have hsum : 0 < a / (a + b) * userPredict mu uid aid
              + b / (a + b) * itemPredict mi uid aid := by
            rcases (lt_or_eq_of_le ha) with ha1 | ha1
            · have : 0 < a / (a + b) * userPredict mu uid aid :=
                mul_pos (div_pos ha1 hab) hup
              have h2 : 0 ≤ b / (a + b) * itemPredict mi uid aid :=
                mul_nonneg (div_nonneg hb (le_of_lt hab)) hi0
              linarith
            · have hb1 : 0 < b := by rw [← ha1] at hab; simpa using hab
              have : 0 < b / (a + b) * itemPredict mi uid aid :=
                mul_pos (div_pos hb1 hab) hip
              have h2 : 0 ≤ a / (a + b) * userPredict mu uid aid :=
                mul_nonneg (div_nonneg ha (le_of_lt hab)) hu0
              linarith
          exact absurd h0 (ne_of_gt hsum)
        · rw [if_neg (by rw [hip]; exact fun hh => lt_irrefl 0 hh.2),
            if_pos hup] at h0
          exact absurd h0 (ne_of_gt hup)
      · rcases hip with hip | hip
        · rw [if_neg (by rw [hup]; exact fun hh => lt_irrefl 0 hh.1),
            if_neg (by rw [hup]; exact lt_irrefl 0), if_pos hip] at h0
          exact absurd h0 (ne_of_gt hip)
        · exact hcon.elim (fun hh => hh hup) (fun hh => hh hip)
    · intro ⟨h1, h2⟩
      rw [if_neg (by rw [h1]; exact fun hh => lt_irrefl 0 hh.1),
        if_neg (by rw [h1]; exact lt_irrefl 0),
        if_neg (by rw [h2]; exact lt_irrefl 0)]

/-- C2 witness: evaluated on the concrete sub-models with the default
`0.5 / 0.5` weights (user `0`, item `102`: the user-based path predicts
`8`, the item-based path cannot predict and returns the sentinel, so the
hybrid returns `8`). -/
theorem hybridPredict_spec_witness :
    0 < userPredict exModelA 0 102 ∧ itemPredict exItemModel 0 102 = 0 ∧
    hybridPredict (mkHybrid exModelA exItemModel (1 / 2) (1 / 2)) 0 102
      = userPredict exModelA 0 102 :=
  ⟨by decide, by decide,
   (hybridPredict_spec exModelA exItemModel (1 / 2) (1 / 2) (by norm_num)
     (by norm_num) (by norm_num) 0 102).2.1 (by decide) (by decide)⟩

/-!
## Training orchestrator (`training_service.py`)

The job table is a `dict` keyed by job id (insertion-ordered association
list here); `active_job` is the id of the most recent job marked running,
or `none`.  Wall-clock fields (`started_at`, `completed_at`) and the
background thread are outside the claims and are not modelled; each public
method body is embedded operation-for-operation.  `create_job`'s
`raise ValueError` (and the `KeyError` Python would raise if `active_job`
pointed at a missing id) are modelled as `Except.error` values returned
*before* any state change, exactly as the exception leaves the service
state untouched.
-/

inductive JobStatus
  | pending
  | running
  | completed
  | failed
deriving DecidableEq, Repr

/-- One `TrainingJob` record (its claim-relevant fields). -/
structure TrainingJob where
  modelName : String
  status : JobStatus
  progress : ℤ
  currentStep : String
  metrics : Option (List (String × ℚ))
  error : Option String
deriving DecidableEq, Repr

/-- `TrainingJob.__init__`. -/
def newJob (name : String) : TrainingJob :=
  ⟨name, .pending, 0, "Initializing...", none, none⟩

/-- `TrainingService` state: the jobs dict and the `active_job` marker. -/
structure TSState where
  jobs : List (String × TrainingJob)
  activeJob : Option String
deriving DecidableEq, Repr

/-- `TrainingService.__init__`. -/
def initTS : TSState := ⟨[], none⟩

/-- `self.jobs.get(job_id)`. -/
def lookupJob : List (String × TrainingJob) → String → Option TrainingJob
  | [], _ => none
  | p :: rest, id => if p.1 = id then some p.2 else lookupJob rest id

/-- `self.jobs[job_id] = job` (dict assignment: overwrite or append). -/
def insertJob (jobs : List (String × TrainingJob)) (id : String)
    (j : TrainingJob) : List (String × TrainingJob) :=
  if (lookupJob jobs id).isSome then
    jobs.map (fun p => if p.1 = id then (id, j) else p)
  else jobs ++ [(id, j)]

/-- Update the record stored under `id` in place (`if job: ... mutate`). -/
def updateJob (jobs : List (String × TrainingJob)) (id : String)
    (f : TrainingJob → TrainingJob) : List (String × TrainingJob) :=
  jobs.map (fun p => if p.1 = id then (p.1, f p.2) else p)

inductive TSError
  | conflict
  | keyError
deriving DecidableEq, Repr

/-- `TrainingService.create_job` (lines 62-86): raise the conflict error if
the recorded active job is `running` (before any mutation); otherwise store
a fresh pending job under the generated id. -/
def createJob (s : TSState) (newId name : String) : Except TSError TSState :=
  match s.activeJob with
  | some a =>
    match lookupJob s.jobs a with
    | none => .error .keyError
    | some j =>
      if j.status = .running then .error .conflict
      else .ok ⟨insertJob s.jobs newId (newJob name), s.activeJob⟩
  | none => .ok ⟨insertJob s.jobs newId (newJob name), s.activeJob⟩

/-- `TrainingService.mark_running` (lines 109-115): unconditionally set the
status to `running` and record the job as active (no-op for a missing id). -/
def markRunning (s : TSState) (id : String) : TSState :=
  match lookupJob s.jobs id with
  | none => s
  | some _ => ⟨updateJob s.jobs id (fun j => { j with status := .running }),
      some id⟩

/-- `TrainingService.mark_completed` (lines 117-128). -/
def markCompleted (s : TSState) (id : String)
    (metrics : List (String × ℚ)) : TSState :=
  match lookupJob s.jobs id with
  | none => s
  | some _ =>
    ⟨updateJob s.jobs id (fun j =>
      { j with
          status := .completed
          progress := 100
          currentStep := "Training completed successfully!"
          metrics := some metrics }),
     if s.activeJob = some id then none else s.activeJob⟩

/-- `TrainingService.mark_failed` (lines 130-140). -/
def markFailed (s : TSState) (id : String) (err : String) : TSState :=
  match lookupJob s.jobs id with
  | none => s
  | some _ =>
    ⟨updateJob s.jobs id (fun j =>
      { j with
          status := .failed
          currentStep := "Training failed"
          error := some err }),
     if s.activeJob = some id then none else s.activeJob⟩

/-- `TrainingService.update_progress` (lines 101-107). -/
def updateProgress (s : TSState) (id : String) (p : ℤ) (step : String) :
    TSState :=
  match lookupJob s.jobs id with
  | none => s
  | some _ =>
    ⟨updateJob s.jobs id (fun j =>
      { j with
          progress := p
          currentStep := step }), s.activeJob⟩

/-- The public operations of the service. -/
inductive TSOp
  | create (newId name : String)
  | markRunning (id : String)
  | markCompleted (id : String) (metrics : List (String × ℚ))
  | markFailed (id : String) (err : String)
  | updateProgress (id : String) (p : ℤ) (step : String)
deriving DecidableEq, Repr

/-- Apply an operation; a raising `create_job` leaves the state unchanged
(the exception propagates to the caller before any mutation). -/
def applyOp (s : TSState) : TSOp → TSState
  | .create newId name =>
    match createJob s newId name with
    | .ok s2 => s2
    | .error _ => s
  | .markRunning id => markRunning s id
  | .markCompleted id metrics => markCompleted s id metrics
  | .markFailed id err => markFailed s id err
  | .updateProgress id p step => updateProgress s id p step

/-- Run a sequence of operations from a state. -/
def runOps (s : TSState) (ops : List TSOp) : TSState :=
  ops.foldl applyOp s

/-- Status of a job in a state. -/
def statusOf (s : TSState) (id : String) : Option JobStatus :=
  (lookupJob s.jobs id).map (fun j => j.status)

/-!
## C7 — conflict on concurrent job creation
-/

/-- C7 (amended): `create_job` raises the conflict error — adding no job
and leaving the state unchanged — exactly in the states where the
*recorded active job* has status `running`.  (A running job that is no
longer the active job does not block creation; see the counterexample.) -/
theorem createJob_conflict (s : TSState) (newId name a : String)
    (j : TrainingJob) (ha : s.activeJob = some a)
    (hj : lookupJob s.jobs a = some j) (hr : j.status = .running) :
    createJob s newId name = .error .conflict ∧
    applyOp s (.create newId name) = s := by
  have h1 : createJob s newId name = .error .conflict := by
    simp [createJob, ha, hj, hr]
  refine ⟨h1, ?_⟩
  simp [applyOp, h1]

/-- Preparatory operation sequence: one job created and marked running. -/
def c7PrepOps : List TSOp := [.create "j1" "m", .markRunning "j1"]

/-- C7 witness: with `j1` running and active, a second `create_job` raises
the conflict error and the state is untouched. -/
theorem createJob_conflict_witness :
    (runOps initTS c7PrepOps).activeJob = some "j1" ∧
    lookupJob (runOps initTS c7PrepOps).jobs "j1"
      = some ⟨"m", .running, 0, "Initializing...", none, none⟩ ∧
    createJob (runOps initTS c7PrepOps) "j2" "m" = .error .conflict ∧
    applyOp (runOps initTS c7PrepOps) (.create "j2" "m")
      = runOps initTS c7PrepOps :=
  ⟨by decide, by decide,
   (createJob_conflict (runOps initTS c7PrepOps) "j2" "m" "j1"
     ⟨"m", .running, 0, "Initializing...", none, none⟩ (by decide) (by decide)
     (by decide)).1,
   (createJob_conflict (runOps initTS c7PrepOps) "j2" "m" "j1"
     ⟨"m", .running, 0, "Initializing...", none, none⟩ (by decide) (by decide)
     (by decide)).2⟩

/-- Reachable preparation for the C7 counterexample: `j1` and `j2` are
created (both pending, nothing active yet, so no conflict), both are marked
running (the second overwrites `active_job`), then `j2` completes and
clears `active_job` — leaving `j1` `running` but not active. -/
def c7CexOps : List TSOp :=
  [.create "j1" "m", .create "j2" "m", .markRunning "j1",
   .markRunning "j2", .markCompleted "j2" []]

/-- C7 counterexample: a reachable `TrainingService` state in which job
`j1` has status `running`, yet `create_job` does *not* raise the conflict
error — it succeeds and stores a new pending job.  The guard checks only
`self.active_job`, not whether any job is running. -/
theorem createJob_conflict_cex :
    statusOf (runOps initTS c7CexOps) "j1" = some .running ∧
    (runOps initTS c7CexOps).activeJob = none ∧
    (createJob (runOps initTS c7CexOps) "j3" "m").toOption.isSome = true ∧
    statusOf (applyOp (runOps initTS c7CexOps) (.create "j3" "m")) "j3"
      = some .pending :=
  ⟨by decide, by decide, by decide, by decide⟩

/-!
## C8 — terminal job states
-/

/-- The operations whose body can write the `status` field of job `j`:
the three `mark_*` methods addressed to `j`, and a `create_job` whose
generated id collides with `j` (dict assignment overwrites; the
uuid-based generator makes this unreachable in practice). -/
def touchesStatus : TSOp → String → Bool
  | .create newId _, j => newId = j
  | .markRunning id, j => id = j
  | .markCompleted id _, j => id = j
  | .markFailed id _, j => id = j
  | .updateProgress _ _ _, _ => false

theorem lookupJob_updateJob_ne (jobs : List (String × TrainingJob))
    (id j : String) (f : TrainingJob → TrainingJob) (h : id ≠ j) :
    lookupJob (updateJob jobs id f) j = lookupJob jobs j := by
  induction jobs with
  | nil => rfl
  | cons p rest ih =>
    unfold updateJob at ih ⊢
    rw [List.map_cons]
    by_cases hp : p.1 = id
    · have hneq : ¬ (p.1 = j) := by rw [hp]; exact h
      rw [if_pos hp]
      unfold lookupJob
      rw [if_neg hneq, if_neg hneq]
      exact ih
    · rw [if_neg hp]
      unfold lookupJob
      by_cases hj2 : p.1 = j
      · rw [if_pos hj2, if_pos hj2]
      · rw [if_neg hj2, if_neg hj2]
        exact ih

theorem lookupJob_updateJob_eq (jobs : List (String × TrainingJob))
    (id : String) (f : TrainingJob → TrainingJob) :
    lookupJob (updateJob jobs id f) id = (lookupJob jobs id).map f := by
  induction jobs with
  | nil => rfl
  | cons p rest ih =>
    unfold updateJob at ih ⊢
    rw [List.map_cons]
    by_cases hp : p.1 = id
    · rw [if_pos hp]
      unfold lookupJob
      rw [if_pos (by exact hp), if_pos hp]
      rfl
    · rw [if_neg hp]
      unfold lookupJob
      rw [if_neg hp, if_neg hp]
      exact ih

theorem lookupJob_insertJob_ne (jobs : List (String × TrainingJob))
    (id j : String) (job : TrainingJob) (h : id ≠ j) :
    lookupJob (insertJob jobs id job) j = lookupJob jobs j := by
  unfold insertJob
  split_ifs with hsome
  · clear hsome
    induction jobs with
    | nil => rfl
    | cons p rest ih =>
      rw [List.map_cons]
      by_cases hp : p.1 = id
      · have hneq : ¬ (p.1 = j) := by rw [hp]; exact h
        rw [if_pos hp]
        unfold lookupJob
        rw [if_neg (by exact h), if_neg hneq]
        exact ih
      · rw [if_neg hp]
        unfold lookupJob
        by_cases hj2 : p.1 = j
        · rw [if_pos hj2, if_pos hj2]
        · rw [if_neg hj2, if_neg hj2]
          exact ih
  · clear hsome
    induction jobs with
    | nil =>
      rw [List.nil_append]
      simp [lookupJob, h]
    | cons p rest ih =>
      rw [List.cons_append]
      unfold lookupJob
      by_cases hj2 : p.1 = j
      · rw [if_pos hj2, if_pos hj2]
      · rw [if_neg hj2, if_neg hj2]
        exact ih

/-- C8 (amended): a job's `status` field is written only by the three
unguarded `mark_*` methods addressed to that job id (or a `create_job`
colliding with it); every other operation — including every operation
addressed to another job — preserves it.  Because `mark_running` /
`mark_completed` / `mark_failed` set the status unconditionally, a job
that already reached `completed` or `failed` is *not* protected: the
claimed terminal-state invariant fails (see the counterexample), and holds
only along call sequences (such as the orchestrator's worker protocol)
that never re-issue a `mark_*` on a finished job. -/
theorem status_change_only_marks (s : TSState) (op : TSOp) (j : String)
    (h : touchesStatus op j = false) :
    statusOf (applyOp s op) j = statusOf s j := by
  cases op with
  | create newId name =>
    have hne : newId ≠ j := by
      intro hx
      rw [hx] at h
      unfold touchesStatus at h
      simp at h
    simp only [applyOp]
    cases hc : createJob s newId name with
    | error e => rfl
    | ok s2 =>
      have hjobs : s2.jobs = insertJob s.jobs newId (newJob name) := by
        unfold createJob at hc
        cases ha : s.activeJob with
        | none =>
          simp only [ha] at hc
          cases hc
          rfl
        | some a =>
          simp only [ha] at hc
          cases hl : lookupJob s.jobs a with
          | none => simp only [hl] at hc; cases hc
          | some jb =>
            simp only [hl] at hc
            by_cases hr : jb.status = .running
            · rw [if_pos hr] at hc; cases hc
            · rw [if_neg hr] at hc
              cases hc
              rfl
      unfold statusOf
      rw [hjobs, lookupJob_insertJob_ne s.jobs newId j (newJob name) hne]
  | markRunning id =>
    have hne : id ≠ j := by
      intro hx
      rw [hx] at h
      unfold touchesStatus at h
      simp at h
    simp only [applyOp]
    unfold markRunning
    cases hl : lookupJob s.jobs id with
    | none => rfl
    | some jb =>
      unfold statusOf
      rw [lookupJob_updateJob_ne s.jobs id j _ hne]
  | markCompleted id metrics =>
    have hne : id ≠ j := by
      intro hx
      rw [hx] at h
      unfold touchesStatus at h
      simp at h
    simp only [applyOp]
    unfold markCompleted
    cases hl : lookupJob s.jobs id with
    | none => rfl
    | some jb =>
      unfold statusOf
      rw [lookupJob_updateJob_ne s.jobs id j _ hne]
  | markFailed id err =>
    have hne : id ≠ j := by
      intro hx
      rw [hx] at h
      unfold touchesStatus at h
      simp at h
    simp only [applyOp]
    unfold markFailed
    cases hl : lookupJob s.jobs id with
    | none => rfl
    | some jb =>
      unfold statusOf
      rw [lookupJob_updateJob_ne s.jobs id j _ hne]
  | updateProgress id p step =>
    simp only [applyOp]
    unfold updateProgress
    cases hl : lookupJob s.jobs id with
    | none => rfl
    | some jb =>
      unfold statusOf
      by_cases hne : id = j
      · subst hne
        rw [lookupJob_updateJob_eq s.jobs id _, hl]
        rfl
      · rw [lookupJob_updateJob_ne s.jobs id j _ hne]

/-- C8 witness: `update_progress` on a completed job leaves its status
untouched. -/
theorem status_change_only_marks_witness :
    touchesStatus (.updateProgress "j" 50 "halfway") "j" = false ∧
    statusOf (applyOp (runOps initTS
        [.create "j" "m", .markRunning "j", .markCompleted "j" []])
      (.updateProgress "j" 50 "halfway")) "j"
      = statusOf (runOps initTS
        [.create "j" "m", .markRunning "j", .markCompleted "j" []]) "j" :=
  ⟨by decide,
   status_change_only_marks
     (runOps initTS [.create "j" "m", .markRunning "j", .markCompleted "j" []])
     (.updateProgress "j" 50 "halfway") "j" (by decide)⟩

/-- C8 counterexample: after `create`, `mark_running`, `mark_completed`,
the job is `completed` (terminal) — yet a further `mark_running` sets the
very same job back to `running`: the claimed terminal-state invariant
fails because the `mark_*` methods carry no status guard. -/
theorem terminal_state_not_preserved :
    statusOf (runOps initTS
        [.create "j" "m", .markRunning "j", .markCompleted "j" []]) "j"
      = some .completed ∧
    statusOf (runOps initTS
        [.create "j" "m", .markRunning "j", .markCompleted "j" [],
         .markRunning "j"]) "j"
      = some .running :=
  ⟨by decide, by decide⟩

/-!
## Splitter (`train.py`, `split_by_user`)

One interaction row.  `split_by_user` groups the input by user in
first-occurrence order (Python dict semantics), shuffles each
sufficiently-rated user's group with a PRNG seeded to the fixed value 42,
and splits it at `int(n * (1 - test_ratio))` with the default
`test_ratio = 0.2`, i.e. at `n * 4 / 5` (exact for every realistic `n`;
the claims do not depend on the precise index).  The seeded shuffle is a
deterministic permutation of its input; it is a parameter `shuffle`
constrained to produce permutations, and the embedding is a pure function
of it, which is exactly the reproducibility the fixed seed provides.
-/

/-- One rating row (`user_id`, `anime_id`, `rating`). -/
structure Rating where
  user : ℤ
  anime : ℤ
  rating : ℚ
deriving DecidableEq, Repr

/-- First-occurrence-order deduplication — the iteration order of a Python
dict built by insertion. -/
def firstDedup : List ℤ → List ℤ
  | [] => []
  | u :: rest => u :: (firstDedup rest).filter (fun v => v ≠ u)

/-- Group the ratings by user, keys in first-occurrence order, each group
in input order — the `user_ratings` dict of `split_by_user`. -/
def groupUsers (l : List Rating) : List (ℤ × List Rating) :=
  (firstDedup (l.map (fun r => r.user))).map
    (fun u => (u, l.filter (fun r => decide (r.user = u))))

/-- The split position `int(n * (1 - test_ratio))` at the default
`test_ratio = 0.2`. -/
def splitIdx (n : ℕ) : ℕ := n * 4 / 5

/-- Per-group 80/20 partitioning of `split_by_user`: users with at least
`minR` ratings are shuffled and split, the others go wholly to train. -/
def splitGroups (shuffle : List Rating → List Rating) (minR : ℕ) :
    List (ℤ × List Rating) → List Rating × List Rating
  | [] => ([], [])
  | (_, g) :: rest =>
    let p := splitGroups shuffle minR rest
    if minR ≤ g.length then
      ((shuffle g).take (splitIdx g.length) ++ p.1,
       (shuffle g).drop (splitIdx g.length) ++ p.2)
    else (g ++ p.1, p.2)

/-- `split_by_user(ratings_data, test_ratio=0.2, min_ratings)`. -/
def splitByUser (shuffle : List Rating → List Rating) (minR : ℕ)
    (data : List Rating) : List Rating × List Rating :=
  splitGroups shuffle minR (groupUsers data)

theorem mem_firstDedup (l : List ℤ) (x : ℤ) :
    x ∈ firstDedup l ↔ x ∈ l := by
  induction l with
  | nil => simp [firstDedup]
  | cons u rest ih =>
    unfold firstDedup
    constructor
    · intro hx
      rcases List.mem_cons.1 hx with hx | hx
      · exact hx ▸ List.mem_cons_self u rest
      · exact List.mem_cons_of_mem u (ih.1 (List.mem_of_mem_filter hx))
    · intro hx
      rcases List.mem_cons.1 hx with hx | hx
      · exact hx ▸ List.mem_cons_self _ _
      · by_cases hxu : x = u
        · exact hxu ▸ List.mem_cons_self _ _
        · exact List.mem_cons_of_mem _
            (List.mem_filter.2 ⟨ih.2 hx, by simpa using hxu⟩)

theorem firstDedup_nodup (l : List ℤ) : (firstDedup l).Nodup := by
  induction l with
  | nil => simp [firstDedup]
  | cons u rest ih =>
    unfold firstDedup
    refine List.nodup_cons.2 ⟨?_, ih.filter _⟩
    intro hmem
    have := List.mem_filter.1 hmem
    simpa using this.2

/-- The groups of `groupUsers` partition the input (as a multiset). -/
theorem groupUsers_join_perm (l : List Rating) :
    (((groupUsers l).map Prod.snd).join).Perm l := by
  have key : ∀ (keys : List ℤ), keys.Nodup → (∀ r ∈ l, r.user ∈ keys) →
      ((keys.map (fun u => l.filter (fun r => decide (r.user = u)))).join).Perm
        l := by
    intro keys
    induction keys generalizing l with
    | nil =>
      intro _ hcov
      have : l = [] := by
        cases l with
        | nil => rfl
        | cons r rest => exact absurd (hcov r (List.mem_cons_self r rest)) (by simp)
      rw [this]
      simp
    | cons u ks ih =>
      intro hnd hcov
      rw [List.map_cons]
      have hjoin : ((l.filter (fun r => decide (r.user = u))) ::
          ks.map (fun v => l.filter (fun r => decide (r.user = v)))).join
          = (l.filter (fun r => decide (r.user = u))) ++
            (ks.map (fun v => l.filter (fun r => decide (r.user = v)))).join := rfl
      rw [hjoin]
      have hks : ∀ v ∈ ks, (l.filter (fun r => decide (r.user = v)))
          = ((l.filter (fun r => decide (¬ r.user = u))).filter
              (fun r => decide (r.user = v))) := by
        intro v hv
        rw [List.filter_filter]
        apply List.filter_congr
        intro r _
        by_cases hr : r.user = v
        · have hru : ¬ r.user = u := by
            rw [hr]
            intro hvu
            exact (List.nodup_cons.1 hnd).1 (hvu ▸ hv)
          have hvu : ¬ v = u := fun hx => hru (by rw [hr, hx])
          simp [hr, hru, hvu]
        · simp [hr]
      have hmap : ks.map (fun v => l.filter (fun r => decide (r.user = v)))
          = ks.map (fun v => (l.filter (fun r => decide (¬ r.user = u))).filter
              (fun r => decide (r.user = v))) :=
        List.map_congr_left hks
      rw [hmap]
      have hcov2 : ∀ r ∈ l.filter (fun r => decide (¬ r.user = u)),
          r.user ∈ ks := by
        intro r hr
        have h1 := List.mem_filter.1 hr
        have h2 := hcov r h1.1
        rcases List.mem_cons.1 h2 with h2 | h2
        · exact absurd h2 (by simpa using h1.2)
        · exact h2
      have hperm := ih (l.filter (fun r => decide (¬ r.user = u)))
        (List.nodup_cons.1 hnd).2 hcov2
      refine List.Perm.trans (hperm.append_left _) ?_
      have := List.filter_append_perm (fun r => decide (r.user = u)) l
      simpa using this
  unfold groupUsers
  rw [List.map_map]
  exact key (firstDedup (l.map (fun r => r.user))) (firstDedup_nodup _)
    (fun r hr => (mem_firstDedup _ _).2 (List.mem_map_of_mem (fun r => r.user) hr))

theorem append_swap_perm {α : Type} (a b c d : List α) :
    ((a ++ b) ++ (c ++ d)).Perm ((a ++ c) ++ (b ++ d)) := by
  have h1 : (b ++ (c ++ d)).Perm (c ++ (b ++ d)) := by
    rw [← List.append_assoc, ← List.append_assoc]
    exact List.perm_append_comm.append_right d
  have h2 := h1.append_left a
  simpa [List.append_assoc] using h2

/-- The two halves of `splitGroups` together are a permutation of the
grouped input. -/
theorem splitGroups_perm (shuffle : List Rating → List Rating) (minR : ℕ)
    (hsh : ∀ g, (shuffle g).Perm g) (gs : List (ℤ × List Rating)) :
    ((splitGroups shuffle minR gs).1 ++ (splitGroups shuffle minR gs).2).Perm
      ((gs.map Prod.snd).join) := by
  induction gs with
  | nil => simp [splitGroups]
  | cons p rest ih =>
    obtain ⟨u, g⟩ := p
    unfold splitGroups
    simp only []
    split_ifs with hlen
    · have h1 := append_swap_perm ((shuffle g).take (splitIdx g.length))
        (splitGroups shuffle minR rest).1
        ((shuffle g).drop (splitIdx g.length))
        (splitGroups shuffle minR rest).2
      refine h1.trans ?_
      rw [List.take_append_drop]
      have hjoin : ((((u, g) :: rest).map Prod.snd).join)
          = g ++ ((rest.map Prod.snd).join) := rfl
      rw [hjoin]
      exact ((hsh g).append ih)
    · have hjoin : ((((u, g) :: rest).map Prod.snd).join)
          = g ++ ((rest.map Prod.snd).join) := rfl
      rw [hjoin, List.append_assoc]
      exact (List.Perm.refl g).append ih

/-- Every test row of `splitGroups` comes from a group with at least
`minR` rows, and that group also contributed at least one row to train. -/
theorem splitGroups_test_spec (shuffle : List Rating → List Rating)
    (minR : ℕ) (hsh : ∀ g, (shuffle g).Perm g) (hmin : 2 ≤ minR)
    (gs : List (ℤ × List Rating))
    (hpure : ∀ p ∈ gs, ∀ x ∈ p.2, x.user = p.1) :
    ∀ r ∈ (splitGroups shuffle minR gs).2,
      ∃ p ∈ gs, minR ≤ p.2.length ∧ r.user = p.1 ∧
        ∃ r2 ∈ (splitGroups shuffle minR gs).1, r2.user = p.1 := by
  induction gs with
  | nil => intro r hr; simp [splitGroups] at hr
  | cons p rest ih =>
    obtain ⟨u, g⟩ := p
    have hpure2 : ∀ p ∈ rest, ∀ x ∈ p.2, x.user = p.1 :=
      fun p hp => hpure p (List.mem_cons_of_mem _ hp)
    intro r hr
    unfold splitGroups at hr ⊢
    simp only [] at hr ⊢
    split_ifs at hr ⊢ with hlen
    · rcases List.mem_append.1 hr with hr | hr
      · have hrg : r ∈ g := (hsh g).subset (List.mem_of_mem_drop hr)
        have hru : r.user = u := hpure (u, g) (List.mem_cons_self _ _) r hrg
        have hidx : 1 ≤ splitIdx g.length := by
          unfold splitIdx
          omega
        have hlen2 : 0 < ((shuffle g).take (splitIdx g.length)).length := by
          rw [List.length_take, (hsh g).length_eq]
          omega
        obtain ⟨r2, hr2⟩ := List.exists_mem_of_length_pos hlen2
        have hr2g : r2 ∈ g := (hsh g).subset (List.mem_of_mem_take hr2)
        refine ⟨(u, g), List.mem_cons_self _ _, hlen, hru,
          r2, List.mem_append_left _ hr2, ?_⟩
        exact hpure (u, g) (List.mem_cons_self _ _) r2 hr2g
      · obtain ⟨p, hp, hplen, hpu, r2, hr2, hr2u⟩ := ih hpure2 r hr
        exact ⟨p, List.mem_cons_of_mem _ hp, hplen, hpu,
          r2, List.mem_append_right _ hr2, hr2u⟩
    · obtain ⟨p, hp, hplen, hpu, r2, hr2, hr2u⟩ := ih hpure2 r hr
      exact ⟨p, List.mem_cons_of_mem _ hp, hplen, hpu,
        r2, List.mem_append_right _ hr2, hr2u⟩

/-- C3: `split_by_user` (i) partitions the input exactly — train and test
together are a permutation of the input, so every interaction lands in
exactly one side exactly once; (ii) every user appearing in test has at
least `min_ratings` interactions in the input and also appears in train
(for the source's operative parameters: `min_ratings = 5 ≥ 2` and the
default `test_ratio = 0.2`); (iii) the split is a pure function of the
(fixed-seed) shuffle, so two runs on the same input coincide. -/
theorem splitByUser_spec (shuffle : List Rating → List Rating) (minR : ℕ)
    (data : List Rating) (hsh : ∀ g, (shuffle g).Perm g)
    (hmin : 2 ≤ minR) :
    (((splitByUser shuffle minR data).1 ++
        (splitByUser shuffle minR data).2).Perm data) ∧
    (∀ r ∈ (splitByUser shuffle minR data).2,
       minR ≤ (data.filter (fun x => decide (x.user = r.user))).length ∧
       ∃ r2 ∈ (splitByUser shuffle minR data).1, r2.user = r.user) ∧
    splitByUser shuffle minR data = splitByUser shuffle minR data := by
  refine ⟨?_, ?_, rfl⟩
  · exact (splitGroups_perm shuffle minR hsh (groupUsers data)).trans
      (groupUsers_join_perm data)
  · have hpure : ∀ p ∈ groupUsers data, ∀ x ∈ p.2, x.user = p.1 := by
      intro p hp x hx
      unfold groupUsers at hp
      obtain ⟨u, _, rfl⟩ := List.mem_map.1 hp
      simpa using (List.mem_filter.1 hx).2
    intro r hr
    obtain ⟨p, hp, hplen, hpu, r2, hr2, hr2u⟩ :=
      splitGroups_test_spec shuffle minR hsh hmin (groupUsers data) hpure r hr
    have hpshape : p.2 = data.filter (fun x => decide (x.user = p.1)) := by
      unfold groupUsers at hp
      obtain ⟨u, _, rfl⟩ := List.mem_map.1 hp
      rfl
    constructor
    · rw [hpu, ← hpshape]
      exact hplen
    · exact ⟨r2, hr2, by rw [hr2u, hpu]⟩

/-- Concrete input for the C3 witness: one user with five ratings. -/
def exSplitData : List Rating :=
  [⟨7, 1, 8⟩, ⟨7, 2, 7⟩, ⟨7, 3, 6⟩, ⟨7, 4, 9⟩, ⟨7, 5, 5⟩]

/-- C3 witness: the splitter invariants evaluated on a concrete input with
the identity as the (seeded, deterministic) shuffle. -/
theorem splitByUser_spec_witness :
    (2 ≤ 5) ∧
    ((((splitByUser id 5 exSplitData).1 ++
        (splitByUser id 5 exSplitData).2).Perm exSplitData) ∧
     (∀ r ∈ (splitByUser id 5 exSplitData).2,
        5 ≤ (exSplitData.filter (fun x => decide (x.user = r.user))).length ∧
        ∃ r2 ∈ (splitByUser id 5 exSplitData).1, r2.user = r.user) ∧
     splitByUser id 5 exSplitData = splitByUser id 5 exSplitData) :=
  ⟨by norm_num,
   splitByUser_spec id 5 exSplitData (fun g => List.Perm.refl g) (by norm_num)⟩

/-!
## Evaluator (`evaluate.py`, `_compute_prediction_metrics`)

The function walks the (possibly sampled) test rows, collects squared and
absolute errors over the rows where `predict` returns a value `> 0`, and
returns `(0.0, 0.0, 0.0)` *before* computing any mean when no prediction
succeeded.  `rmse = np.sqrt(np.mean(errors))` involves a real square
root, so the embedding carries the mean squared error in its place;
`Real.sqrt 0 = 0`, so the sentinel branch — the only one the claim is
about — is unaffected.  The sampling (`random.sample` when the test set
exceeds `sample_size`) yields some sublist of the test data; the claim's
hypothesis (a predictor that always returns the sentinel) makes the
result independent of which rows were sampled, so the embedding quantifies
over the sampled list itself.
-/

/-- The triple returned by `_compute_prediction_metrics`; `mse` is the
mean of the squared errors (the code reports its square root as RMSE). -/
structure PredMetrics where
  mse : ℚ
  mae : ℚ
  coverage : ℚ
deriving DecidableEq, Repr

/-- `np.mean` over a list (division by zero never reached: the caller
returns early on the empty list). -/
def listMean (l : List ℚ) : ℚ := l.sum / l.length

/-- `_compute_prediction_metrics` (`evaluate.py` lines 75-115). -/
def computePredictionMetrics (predict : Rating → ℚ) (sampled : List Rating) :
    PredMetrics :=
  let succ := sampled.filter (fun r => decide (0 < predict r))
  if succ = [] then ⟨0, 0, 0⟩
  else
    ⟨listMean (succ.map (fun r => (r.rating - predict r) ^ 2)),
     listMean (succ.map (fun r => |r.rating - predict r|)),
     (succ.length : ℚ) / (sampled.length : ℚ)⟩

/-- C9: a predictor that always returns the sentinel `0` makes the
prediction-metric computation return coverage `0.0` and (R)MSE/MAE `0.0`
on every test set; the function is total, so no division-by-zero or other
exception can occur. -/
theorem sentinel_predictor_metrics (predict : Rating → ℚ)
    (sampled : List Rating) (h : ∀ r, predict r = 0) :
    computePredictionMetrics predict sampled = ⟨0, 0, 0⟩ := by
  unfold computePredictionMetrics
  have hnil : sampled.filter (fun r => decide (0 < predict r)) = [] := by
    rw [List.filter_eq_nil_iff]
    intro r _
    simp [h r]
  rw [hnil]
  simp

/-- C9 witness: the always-sentinel predictor on a concrete test set. -/
theorem sentinel_predictor_metrics_witness :
    (∀ r : Rating, (fun _ : Rating => (0 : ℚ)) r = 0) ∧
    computePredictionMetrics (fun _ => 0) exSplitData = ⟨0, 0, 0⟩ :=
  ⟨fun _ => rfl,
   sentinel_predictor_metrics (fun _ => 0) exSplitData (fun _ => rfl)⟩

/-!
## C10 — `fit` on the empty interaction list

`UserBasedCF.fit` (`user_based.py` lines 45-98) contains no input
validation.  On `[]` it (1) reassigns `user_id_map` / `anime_id_map` /
`reverse_*` to empty dicts (lines 58-61), (2) assigns `user_item_matrix`
to a `0×0` sparse matrix (line 76), and only then (3) crashes at line 82
with a `ZeroDivisionError`: `sparsity = 1 - nnz / (shape[0] * shape[1])`
divides by `0 * 0`.  The embedding tracks the mutation order of the
claim-relevant fields (id maps, matrix) and reports the division by zero
as the outcome; the similarity computation (line 96) is on neither path
reached before it.
-/

/-- The claim-relevant mutable state of a `UserBasedCF` instance:
identifier maps and the interaction matrix
(shape and the COO entry list), `none` before any `fit`. -/
structure FitModelState where
  userIdMap : List (ℤ × ℕ)
  animeIdMap : List (ℤ × ℕ)
  matrix : Option (ℕ × ℕ × List ((ℕ × ℕ) × ℚ))
deriving DecidableEq, Repr

/-- A freshly constructed model. -/
def initFitState : FitModelState := ⟨[], [], none⟩

inductive FitOutcome
  | ok
  | zeroDivisionError
deriving DecidableEq, Repr

/-- `sorted(set(...))`. -/
def sortedUnique (l : List ℤ) : List ℤ :=
  List.insertionSort (fun a b => a ≤ b) (firstDedup l)

/-- `{id: idx for idx, id in enumerate(ids)}`. -/
def enumMap (l : List ℤ) : List (ℤ × ℕ) :=
  l.enum.map (fun p => (p.2, p.1))

def lookupIdx (m : List (ℤ × ℕ)) (k : ℤ) : Option ℕ :=
  (m.find? (fun p => decide (p.1 = k))).map Prod.snd

/-- `UserBasedCF.fit`, up to the statement that decides the claim: map
construction, matrix construction, then the sparsity computation whose
denominator `shape[0] * shape[1]` raises `ZeroDivisionError` when it is
zero.  Returns the state as mutated so far together with the outcome. -/
def fitUser (_s : FitModelState) (data : List Rating) :
    FitModelState × FitOutcome :=
  let users := sortedUnique (data.map (fun r => r.user))
  let animes := sortedUnique (data.map (fun r => r.anime))
  let userIdMap := enumMap users
  let animeIdMap := enumMap animes
  let entries := data.filterMap (fun r =>
    match lookupIdx userIdMap r.user, lookupIdx animeIdMap r.anime with
    | some ui, some ai => some ((ui, ai), r.rating)
    | _, _ => none)
  let s2 : FitModelState :=
    ⟨userIdMap, animeIdMap, some (users.length, animes.length, entries)⟩
  if users.length * animes.length = 0 then (s2, .zeroDivisionError)
  else (s2, .ok)

/-- A previously fitted state (so the maps are nonempty before the
failing call). -/
def prevFitState : FitModelState := (fitUser initFitState exSplitData).1

/-- C10 (code bug): `fit([])` does *not* fail fast with a validation
error before mutating state.  On a fresh model it sets the matrix to the
`0×0` empty matrix (changing it from `none`) and then raises
`ZeroDivisionError` in the sparsity computation; on a previously fitted
model it additionally wipes the identifier maps before the crash. -/
theorem fit_empty_divergence :
    (fitUser initFitState []).2 = .zeroDivisionError ∧
    (fitUser initFitState []).1.matrix = some (0, 0, []) ∧
    (fitUser initFitState []).1 ≠ initFitState ∧
    (fitUser prevFitState []).2 = .zeroDivisionError ∧
    prevFitState.userIdMap ≠ [] ∧
    (fitUser prevFitState []).1.userIdMap = [] :=
  ⟨by decide, by decide, by decide, by decide, by decide, by decide⟩
